/-
Verification of the amazon-redis-session library (Go, backed by Redis).

The development shallowly embeds the library's data model and operations:

* The Redis store is modelled by `Store`: per country code `C`, the list at
  key `C:session-ids` (field `idx`) and the hash at key `C:cookies`
  (field `records`), both as association lists keyed by the country code.
* Redis hash values are strings; this library only ever stores integer
  strings (timestamps, usage counters, written by HSET/HINCRBY) and JSON
  objects of cookie name/value pairs (written by PushSession).  The value
  domain is therefore modelled by `RVal` with constructors for a raw
  string, an integer string and a serialized cookie map; JSON and integer
  formatting are injective, which the constructors reflect.
* Redis Lua scripts (getSessionCmd, listSessionCmd, allSessionCmd,
  cleanupSessionsCmd) are embedded step by step; a script abort carries
  the partial effects performed so far, matching Redis semantics (no
  rollback of script effects).
* Wall-clock reads (time.Now().Unix()) become an explicit `now : Int`
  argument; transport-level Redis failures are not modelled (every
  modelled call reaches the server).
-/
import Mathlib

namespace AmazonSession

/-- Redis hash/bulk values as stored by this library: `vstr` a raw string,
`vint` the decimal rendering of an integer (timestamps, counters),
`vjson` the JSON object serialization of a cookie name→value map
(Go `json.Marshal` of a `map[string]string`). -/
inductive RVal : Type
  | vstr (s : String)
  | vint (n : Int)
  | vjson (m : List (String × String))
deriving DecidableEq, Repr

/-- One Redis hash: association list from field name to value. -/
abbrev Hash := List (String × RVal)

/-- The Redis database as used by the library: `idx c` models the list at
key `c:session-ids`, `rec c` models the hash at key `c:cookies`. -/
structure Store : Type where
  idx : List (String × List String)
  records : List (String × Hash)
deriving DecidableEq, Repr

def emptyStore : Store := ⟨[], []⟩

/-! Association-list primitives shared by the list and hash keyspaces. -/

def assocGet {α : Type} : List (String × α) → String → Option α
  | [], _ => none
  | (k', v') :: rest, k => if k' = k then some v' else assocGet rest k

def assocSet {α : Type} : List (String × α) → String → α → List (String × α)
  | [], k, v => [(k, v)]
  | (k', v') :: rest, k, v => if k' = k then (k, v) :: rest else (k', v') :: assocSet rest k v

def assocDropKey {α : Type} (m : List (String × α)) (k : String) : List (String × α) :=
  m.filter (fun p => decide (p.1 ≠ k))

/-! Redis primitives.  A key whose collection becomes empty is removed
(Redis deletes empty lists and hashes). -/

/-- HGET on a hash (`none` is Redis nil, Lua `false`). -/
def hget (h : Hash) (f : String) : Option RVal := assocGet h f

/-- HSET on a hash. -/
def hset (h : Hash) (f : String) (v : RVal) : Hash := assocSet h f v

/-- HDEL of a single field. -/
def hdel (h : Hash) (f : String) : Hash := assocDropKey h f

/-- HINCRBY: missing field is created at `n`; a non-integer value is a
Redis error ("hash value is not an integer").  (Integer-valued strings are
always stored as `vint` in this embedding.) -/
def hincrby (h : Hash) (f : String) (n : Int) : Except String (Hash × Int) :=
  match hget h f with
  | none => .ok (hset h f (RVal.vint n), n)
  | some (RVal.vint m) => .ok (hset h f (RVal.vint (m + n)), m + n)
  | some _ => .error "hash value is not an integer"

/-- LRANGE of the list at `c:session-ids` (missing key is the empty list). -/
def getList (st : Store) (c : String) : List String := (assocGet st.idx c).getD []

/-- Contents of the hash at `c:cookies` (missing key is the empty hash). -/
def getHash (st : Store) (c : String) : Hash := (assocGet st.records c).getD []

def setList (st : Store) (c : String) (l : List String) : Store :=
  if l.isEmpty then ⟨assocDropKey st.idx c, st.records⟩ else ⟨assocSet st.idx c l, st.records⟩

def setHash (st : Store) (c : String) (h : Hash) : Store :=
  if h.isEmpty then ⟨st.idx, assocDropKey st.records c⟩ else ⟨st.idx, assocSet st.records c h⟩

/-! Key construction, as in the Go source (fmt.Sprintf over the id). -/

def lastCheckedKey (sessionID : String) : String := sessionID ++ ":last-checked"

def usageCountKey (sessionID : String) : String := sessionID ++ ":usage-count"

def createdAtKey (sessionID : String) : String := sessionID ++ ":created-at"

/-- defaultCountryCodeDomainMap from the Go source. -/
def defaultCountryCodeDomainMap : List (String × String) :=
  [("BR", "https://www.amazon.com.br"),
   ("TR", "https://www.amazon.com.tr"),
   ("ES", "https://www.amazon.es"),
   ("FR", "https://www.amazon.fr"),
   ("IN", "https://www.amazon.in"),
   ("NL", "https://www.amazon.nl"),
   ("SA", "https://www.amazon.sa"),
   ("BE", "https://www.amazon.com.be"),
   ("AU", "https://www.amazon.com.au"),
   ("US", "https://www.amazon.com"),
   ("UK", "https://www.amazon.co.uk"),
   ("DE", "https://www.amazon.de"),
   ("SE", "https://www.amazon.se"),
   ("SG", "https://www.amazon.sg"),
   ("CA", "https://www.amazon.ca"),
   ("MX", "https://www.amazon.com.mx"),
   ("IT", "https://www.amazon.it"),
   ("AE", "https://www.amazon.ae"),
   ("PL", "https://www.amazon.pl"),
   ("JP", "https://www.amazon.co.jp")]

/-- getCountryURL: resolves the country's base URL from the fixed table
(url.Parse of a table constant never fails; the parse is elided and the
domain string returned directly). -/
def getCountryURL (country : String) : Except String String :=
  match assocGet defaultCountryCodeDomainMap country with
  | some domain => .ok domain
  | none => .error ("domain not found for country: " ++ country)

/-- http.Cookie restricted to the fields this library reads. -/
structure Cookie : Type where
  name : String
  value : String
deriving DecidableEq, Repr

/-- Session as passed to PushSession.  `jar` models `session.Jar`: `some jc`
stands for a cookie jar whose `Cookies(countryURL)` call yields `jc`
(the jar itself is an external collaborator); `none` is a nil jar. -/
structure SessionInput : Type where
  country : String
  jar : Option (List Cookie)
  cookies : List Cookie
deriving DecidableEq, Repr

/-- Allow-list test from PushSession's cookie loop. -/
def allowCookie (name : String) : Bool :=
  name == "i18n-prefs" || name == "session-id" || name == "session-id-time" ||
    name.startsWith "ubid-" || name.startsWith "lc-"

/-- The cookie loop of PushSession: builds `cookiesMap` (a Go map, so a
later cookie with the same name overwrites) and the `sessionID` variable
(value of the last "session-id" cookie seen). -/
def collectCookies (cookies : List Cookie) : List (String × String) × String :=
  cookies.foldl
    (fun acc item =>
      if allowCookie item.name then
        (assocSet acc.1 item.name item.value,
         if item.name == "session-id" then item.value else acc.2)
      else acc)
    ([], "")

/-- Cookie-source resolution in PushSession: with a non-nil jar the country
domain is looked up first (failing for unmapped countries) and the jar's
cookies are used; otherwise the explicit cookie list is used as-is. -/
def resolveCookies (session : SessionInput) : Except String (List Cookie) :=
  match session.jar with
  | some jarCookies =>
    match assocGet defaultCountryCodeDomainMap session.country with
    | some _ => .ok jarCookies
    | none => .error ("domain not found for country: " ++ session.country)
  | none => .ok session.cookies

/-- PushSession.  Validation happens before any store access; the final
TxPipelined transaction performs HSET payload, HSET last-checked,
HSET usage-count and RPUSH of the id (json.Marshal of a map[string]string
cannot fail and is elided). -/
def PushSession (st : Store) (session : SessionInput) (now : Int) :
    Store × Except String Unit :=
  if session.country = "" then (st, .error "country not found in session")
  else if session.jar = none ∧ session.cookies = [] then
    (st, .error "cookies jar and cookies not found in session")
  else
    match resolveCookies session with
    | .error e => (st, .error e)
    | .ok cookies =>
      let collected := collectCookies cookies
      let sessionID := collected.2
      if sessionID = "" then (st, .error "session-id not found in session")
      else
        let h := getHash st session.country
        let h := hset h sessionID (RVal.vjson collected.1)
        let h := hset h (lastCheckedKey sessionID) (RVal.vint now)
        let h := hset h (usageCountKey sessionID) (RVal.vint 0)
        let l := getList st session.country ++ [sessionID]
        (setList (setHash st session.country h) session.country l, .ok ())

/-- UpdateLastCheckedTimestamp: a single HSET of the `<id>:last-checked`
field signed with the current time; no existence check of any kind. -/
def UpdateLastCheckedTimestamp (st : Store) (country sessionID : String) (now : Int) :
    Store × Except String Unit :=
  (setHash st country (hset (getHash st country) (lastCheckedKey sessionID) (RVal.vint now)),
   .ok ())

/-- DeleteSession: LREM of the first matching id from the index list, then
HDEL of the payload, last-checked and usage-count fields. -/
def DeleteSession (st : Store) (country sessionID : String) : Store :=
  let st' := setList st country ((getList st country).erase sessionID)
  let h := getHash st' country
  let h := hdel (hdel (hdel h sessionID) (lastCheckedKey sessionID)) (usageCountKey sessionID)
  setHash st' country h

/-! Reply decoding helpers (the spf13/cast conversions used by the Go
side on reply elements; `none` is a nil reply element). -/

/-- Rendering of a cookie map as Go's json.Marshal emits it (string
escaping inside names/values is elided; no theorem depends on the exact
text, only on the decode below). -/
def jsonRender (m : List (String × String)) : String :=
  "\x7b" ++ String.intercalate "," (m.map (fun p => "\"" ++ p.1 ++ "\":\"" ++ p.2 ++ "\"")) ++
    "\x7d"

/-- cast.ToString on a reply element (nil becomes ""). -/
def castToString : Option RVal → String
  | none => ""
  | some (RVal.vstr s) => s
  | some (RVal.vint n) => toString n
  | some (RVal.vjson m) => jsonRender m

/-- cast.ToInt64 on a reply element (0 on anything non-numeric; this
library stores every numeric hash value as `vint`). -/
def castToInt64 : Option RVal → Int
  | some (RVal.vint n) => n
  | _ => 0

/-- cast.ToInt64E on a reply element: nil casts to 0, an integer to
itself, anything non-numeric is a cast error. -/
def castToInt64E : Option RVal → Except String Int
  | none => .ok 0
  | some (RVal.vint n) => .ok n
  | some _ => .error "unable to cast to int64"

/-- Composite of cast.ToString and json.Unmarshal into a
map[string]string, as applied to a payload reply element: a serialized
cookie map decodes to itself; a nil reply casts to "" whose decode fails
("unexpected end of JSON input"); the other values this library stores
(country codes, session ids, integer renderings) are never valid JSON
objects, so their decode fails as well. -/
def unmarshalCookieField : Option RVal → Except String (List (String × String))
  | some (RVal.vjson m) => .ok m
  | none => .error "unexpected end of JSON input"
  | some _ => .error "json: cannot unmarshal value into map[string]string"

/-! The getSessionCmd script and GetSession. -/

/-- redis.call("HGET", KEYS[1], arg) from Lua: a nil argument (an ARGV
index past the end) is a Lua error aborting the script. -/
def luaHGet (h : Hash) (arg : Option String) : Except String (Option RVal) :=
  match arg with
  | none => .error "Lua redis lib command arguments must be strings or integers"
  | some f => .ok (hget h f)

/-- redis.call("HINCRBY", KEYS[1], arg, n) from Lua; nil argument as in
`luaHGet`. -/
def luaHIncrBy (h : Hash) (arg : Option String) (n : Int) : Except String (Hash × Int) :=
  match arg with
  | none => .error "Lua redis lib command arguments must be strings or integers"
  | some f => hincrby h f n

/-- getSessionCmd: the Lua script, over the hash at KEYS[1].  ARGV[n] of
Lua is `argv.get? (n-1)` (nil past the end).  The result pairs the hash
after the script ran with the reply; an error reply keeps the effects
performed before the abort (Redis does not roll scripts back), so the
HINCRBY of the usage count survives both the nil-argument abort at
ARGV[4] and the "NOT FOUND" error reply. -/
def getSessionScript (h : Hash) (argv : List String) :
    Hash × Except String (List (Option RVal)) :=
  match luaHGet h (argv.get? 0) with
  | .error e => (h, .error e)
  | .ok cookies =>
    match luaHIncrBy h (argv.get? 1) 1 with
    | .error e => (h, .error e)
    | .ok (h', usageCount) =>
      match luaHGet h' (argv.get? 2) with
      | .error e => (h', .error e)
      | .ok lastCheck =>
        match luaHGet h' (argv.get? 3) with
        | .error e => (h', .error e)
        | .ok createdAt =>
          if cookies = none then (h', .error "NOT FOUND")
          else (h', .ok [cookies, some (RVal.vint usageCount), lastCheck, createdAt])

/-- Session snapshot as returned to callers (cookiejar reconstruction and
cookie attributes such as Path/Domain/Expires are presentation only and
elided; `cookies` is the decoded payload map). -/
structure SessionView : Type where
  country : String
  sessionID : String
  cookies : List (String × String)
  usageCount : Int
  lastCheckedTimeUnix : Int
deriving DecidableEq, Repr

/-- GetSession: resolves the country URL, runs getSessionCmd with the
three arguments [sessionID, usageCountKey, lastCheckedKey], then decodes
the reply, insisting on exactly 3 reply values. -/
def GetSession (st : Store) (country sessionID : String) :
    Store × Except String SessionView :=
  match getCountryURL country with
  | .error e => (st, .error e)
  | .ok _ =>
    let argv := [sessionID, usageCountKey sessionID, lastCheckedKey sessionID]
    let scriptRes := getSessionScript (getHash st country) argv
    let st' := setHash st country scriptRes.1
    match scriptRes.2 with
    | .error e => (st', .error ("redis eval error: " ++ e))
    | .ok values =>
      match values with
      | [v0, v1, v2] =>
        match castToInt64E v1 with
        | .error _ => (st', .error "unexpected value returned from Lua script")
        | .ok usageCount =>
          match castToInt64E v2 with
          | .error _ => (st', .error "unexpected value returned from Lua script")
          | .ok lastCheckedTimeUnix =>
            match unmarshalCookieField v0 with
            | .error e => (st', .error e)
            | .ok cookiesMap =>
              (st', .ok ⟨country, sessionID, cookiesMap, usageCount, lastCheckedTimeUnix⟩)
      | _ => (st', .error "unepxected number of values returned from Lua script")

/-! The allSessionCmd script and GetAllSessions. -/

/-- allSessionCmd: for every `*:cookies` hash (modelled as the store's
record entries, in entry order — Redis KEYS order is unspecified), for
every id in that country's session-ids list, append six reply entries:
country, id, payload, last-checked, usage-count, created-at.  The script
only reads, so it cannot abort. -/
def allSessionScript (st : Store) : List (Option RVal) :=
  st.records.foldl
    (fun res entry =>
      let countryCode := entry.1
      let sessionIds := getList st countryCode
      sessionIds.foldl
        (fun res sessionId =>
          res ++ [some (RVal.vstr countryCode), some (RVal.vstr sessionId),
                  hget entry.2 sessionId,
                  hget entry.2 (lastCheckedKey sessionId),
                  hget entry.2 (usageCountKey sessionId),
                  hget entry.2 (createdAtKey sessionId)])
        res)
    []

/-- Reply-consumption loop of GetAllSessions: `for i := 0; i < len(data);
i += 5`, reading data[i] (country), data[i+2] (payload), data[i+1] (id),
data[i+4] (usage), data[i+3] (last-checked) — a stride of 5 over a reply
the script produced in chunks of 6.  An index past the end of the reply
slice is a Go runtime panic, modelled as an error result. -/
def decodeAllSessions : List (Option RVal) → Except String (List SessionView)
  | [] => .ok []
  | [d0] =>
    (match getCountryURL (castToString d0) with
     | .error e => .error e
     | .ok _ => .error "panic: runtime error: index out of range")
  | [d0, _] =>
    (match getCountryURL (castToString d0) with
     | .error e => .error e
     | .ok _ => .error "panic: runtime error: index out of range")
  | [d0, _, d2] =>
    (match getCountryURL (castToString d0) with
     | .error e => .error e
     | .ok _ =>
       match unmarshalCookieField d2 with
       | .error e => .error e
       | .ok _ => .error "panic: runtime error: index out of range")
  | [d0, _, d2, _] =>
    (match getCountryURL (castToString d0) with
     | .error e => .error e
     | .ok _ =>
       match unmarshalCookieField d2 with
       | .error e => .error e
       | .ok _ => .error "panic: runtime error: index out of range")
  | d0 :: d1 :: d2 :: d3 :: d4 :: rest =>
    match getCountryURL (castToString d0) with
    | .error e => .error e
    | .ok _ =>
      match unmarshalCookieField d2 with
      | .error e => .error e
      | .ok cookiesMap =>
        match decodeAllSessions rest with
        | .error e => .error e
        | .ok views =>
          .ok (⟨castToString d0, castToString d1, cookiesMap,
                castToInt64 d4, castToInt64 d3⟩ :: views)

/-- GetAllSessions: run allSessionCmd and consume the reply (the
cast.ToSliceE of an array reply always succeeds and is elided). -/
def GetAllSessions (st : Store) : Except String (List SessionView) :=
  decodeAllSessions (allSessionScript st)

/-! Pagination, the listSessionCmd script and ListSession. -/

/-- Pagination specifies the page size and page number for the list
operation (Go struct of the same name). -/
structure Pagination : Type where
  Size : Int
  Page : Int
deriving DecidableEq, Repr

def Pagination.start (p : Pagination) : Int := p.Size * p.Page

def Pagination.stop (p : Pagination) : Int := p.Size * p.Page + p.Size - 1

/-- Redis LRANGE: negative offsets count from the tail; a start below 0
after normalization is clamped to 0 and a stop beyond the end to the last
element; an inverted window yields the empty list. -/
def lrange (l : List String) (start stop : Int) : List String :=
  let n : Int := l.length
  let s := max (if start < 0 then n + start else start) 0
  let e := min (if stop < 0 then n + stop else stop) (n - 1)
  if s > e then [] else (l.drop s.toNat).take (e - s + 1).toNat

/-- listSessionCmd: LRANGE the requested window of KEYS[1], then loop over
the ids.  The loop's third local is built from `sessionId`, which is not a
variable of this script (its loop variable is `id`), so the read of the
nonexistent global aborts the script on the first iteration: every
non-empty window yields an error reply and only an empty window returns
(empty) data. -/
def listSessionScript (l : List String) (_h : Hash) (start stop : Int) :
    Except String (List (Option RVal)) :=
  let ids := lrange l start stop
  ids.foldlM
    (fun _data _id =>
      (.error "Script attempted to access nonexistent global variable (sessionId)" :
        Except String (List (Option RVal))))
    ([] : List (Option RVal))

/-- Reply-consumption loop of ListSession: stride 4 over the reply
(id, payload, usage, last-checked), against the script's 5 entries per id.
The element conversions compose cast.ToStringSliceE's per-element
ToString with the later decodes, fused as in `unmarshalCookieField` /
`castToString` / `castToInt64`.  Out-of-range indices are Go panics. -/
def decodeListSessions (country : String) :
    List (Option RVal) → Except String (List SessionView)
  | [] => .ok []
  | [_] => .error "panic: runtime error: index out of range"
  | [_, d1] =>
    (match unmarshalCookieField d1 with
     | .error e => .error e
     | .ok _ => .error "panic: runtime error: index out of range")
  | [_, d1, _] =>
    (match unmarshalCookieField d1 with
     | .error e => .error e
     | .ok _ => .error "panic: runtime error: index out of range")
  | d0 :: d1 :: d2 :: d3 :: rest =>
    match unmarshalCookieField d1 with
    | .error e => .error e
    | .ok cookiesMap =>
      match decodeListSessions country rest with
      | .error e => .error e
      | .ok views =>
        .ok (⟨country, castToString d0, cookiesMap,
              castToInt64 d2, castToInt64 d3⟩ :: views)

/-- ListSession: resolve the country URL, translate the page window into
negative offsets (page 0 at the tail), run listSessionCmd, decode. -/
def ListSession (st : Store) (country : String) (pgn : Pagination) :
    Except String (List SessionView) :=
  match getCountryURL country with
  | .error e => .error e
  | .ok _ =>
    let stop := -(pgn.start) - 1
    let start := -(pgn.stop) - 1
    match listSessionScript (getList st country) (getHash st country) start stop with
    | .error e => .error ("redis eval error: " ++ e)
    | .ok data => decodeListSessions country data

/-! The cleanupSessionsCmd script and CleanupSessions. -/

/-- Lua tonumber on a stored hash value (this embedding stores every
numeric string as `vint`; payload strings are not numeric). -/
def rvalToNumber : RVal → Option Int
  | RVal.vint n => some n
  | _ => none

/-- HDEL of a session's payload, last-checked and usage-count fields, in
the order cleanupSessionsCmd issues them (created-at is not deleted). -/
def hdelMeta (h : Hash) (sessionId : String) : Hash :=
  hdel (hdel (hdel h sessionId) (lastCheckedKey sessionId)) (usageCountKey sessionId)

/-- Eviction of one session inside cleanupSessionsCmd: LREM with count 0
(all occurrences) on the id list, then the three HDELs. -/
def evictApply (l : List String) (h : Hash) (sessionId : String) : List String × Hash :=
  (l.filter (fun x => decide (x ≠ sessionId)), hdelMeta h sessionId)

/-- One iteration of cleanupSessionsCmd's inner loop, on the current
(list, hash) state: skip entirely when last-checked is absent; otherwise
evict when `now - lastChecked >= tdThr`, else (short-circuit `or`) when
the usage count is present and `usage >= ucThr`.  A non-numeric stored
value aborts the script (Lua arithmetic/comparison on nil). -/
def sweepStep (now tdThr ucThr : Int) (s : List String × Hash) (sessionId : String) :
    Except String (List String × Hash) :=
  match hget s.2 (lastCheckedKey sessionId) with
  | none => .ok s
  | some lastChecked =>
    match rvalToNumber lastChecked with
    | none => .error "user_script: attempt to perform arithmetic on a nil value"
    | some lastCheckedTime =>
      let timeDiff := now - lastCheckedTime
      if timeDiff ≥ tdThr then .ok (evictApply s.1 s.2 sessionId)
      else
        match hget s.2 (usageCountKey sessionId) with
        | none => .ok s
        | some usageCount =>
          match rvalToNumber usageCount with
          | none => .error "user_script: attempt to compare nil with number"
          | some n => if n ≥ ucThr then .ok (evictApply s.1 s.2 sessionId) else .ok s

/-- Inner loop of cleanupSessionsCmd over one country's id list; an abort
keeps the state reached so far (script effects are not rolled back). -/
def sweepCountryGo (now tdThr ucThr : Int) :
    List String → List String × Hash → (List String × Hash) × Option String
  | [], s => (s, none)
  | sessionId :: rest, s =>
    match sweepStep now tdThr ucThr s sessionId with
    | .error e => (s, some e)
    | .ok s' => sweepCountryGo now tdThr ucThr rest s'

/-- Outer loop of cleanupSessionsCmd over the `*:cookies` keys found at
script start; each country's LRANGE is taken from the store as reached so
far, and an abort stops the whole script, keeping partial effects. -/
def cleanupCountriesGo (now tdThr ucThr : Int) :
    List String → Store → Store × Option String
  | [], st => (st, none)
  | c :: rest, st =>
    let ids := getList st c
    let swept := sweepCountryGo now tdThr ucThr ids (ids, getHash st c)
    let st' := setHash (setList st c swept.1.1) c swept.1.2
    match swept.2 with
    | some e => (st', some e)
    | none => cleanupCountriesGo now tdThr ucThr rest st'

/-- CleanupSessions: runs cleanupSessionsCmd with the current time and the
two thresholds. -/
def CleanupSessions (st : Store) (now tdThr ucThr : Int) : Store × Except String Unit :=
  let run := cleanupCountriesGo now tdThr ucThr (st.records.map Prod.fst) st
  (run.1,
   match run.2 with
   | none => .ok ()
   | some e => .error ("redis eval error: " ++ e))

/-! Specification-side predicates used to state properties of the sweep. -/

/-- Eviction decision of cleanupSessionsCmd, read off a fixed hash: it is
what one non-aborting `sweepStep` tests — last-checked must be present
(otherwise the session is skipped), and then either the age condition or
(usage present and over threshold). -/
def evictCond (now tdThr ucThr : Int) (h : Hash) (id : String) : Bool :=
  match hget h (lastCheckedKey id) with
  | none => false
  | some lc =>
    match rvalToNumber lc with
    | none => false
    | some t =>
      (decide (now - t ≥ tdThr)) ||
        (match hget h (usageCountKey id) with
         | none => false
         | some u =>
           match rvalToNumber u with
           | none => false
           | some n => decide (n ≥ ucThr))

/-- Identifier hygiene: an id containing no ':' can never collide with
another identifier's derived metadata field names (true of real Amazon
session ids, which are digit/hyphen strings). -/
def colonFreeB (s : String) : Bool := s.data.all (fun ch => !(ch == ':'))

def isVint : RVal → Bool
  | RVal.vint _ => true
  | _ => false

/-- Fields shaped like derived metadata keys. -/
def metaSuffixB (f : String) : Bool :=
  List.isSuffixOf ":last-checked".data f.data || List.isSuffixOf ":usage-count".data f.data

/-- Hash well-formedness: every metadata-shaped field stores an integer
value, as every write performed by this library guarantees (HSET of a
unix time or 0, HINCRBY). -/
def wfHash (h : Hash) : Prop := ∀ p ∈ h, metaSuffixB p.1 = true → isVint p.2 = true

instance wfHashDecidable (h : Hash) : Decidable (wfHash h) :=
  inferInstanceAs (Decidable (∀ p ∈ h, metaSuffixB p.1 = true → isVint p.2 = true))

/-! Concrete inputs and stores used to evaluate the operations. -/

def sessionA : SessionInput := ⟨"US", none, [⟨"session-id", "a"⟩]⟩

def sessionB : SessionInput := ⟨"US", none, [⟨"session-id", "b"⟩]⟩

def sessionC : SessionInput := ⟨"US", none, [⟨"session-id", "c"⟩]⟩

/-- The store after one valid push of id "a" for "US" at time 42. -/
def pushedStore : Store := (PushSession emptyStore sessionA 42).1

/-- The store after pushes of ids "a", "b", "c" (in that order) for "US". -/
def threePushStore : Store :=
  (PushSession (PushSession (PushSession emptyStore sessionA 1).1 sessionB 2).1 sessionC 3).1

/-- A store whose one indexed session has a usage count but no recorded
last-checked field (reachable, e.g.: push an id twice, then delete it
once — the surviving index entry's record fields are gone). -/
def noLastCheckedStore : Store :=
  ⟨[("US", ["s1"])],
   [("US", [("s1", RVal.vjson [("session-id", "s1")]), ("s1:usage-count", RVal.vint 5)])]⟩

/-- A store with one complete session record (last-checked 50, usage 3). -/
def sweepDemoStore : Store :=
  ⟨[("US", ["s1"])],
   [("US", [("s1", RVal.vjson [("session-id", "s1")]),
            ("s1:last-checked", RVal.vint 50), ("s1:usage-count", RVal.vint 3)])]⟩

/-- A store holding only id "s2" for "US" (id "s1" is absent everywhere). -/
def otherSessionStore : Store :=
  ⟨[("US", ["s2"])],
   [("US", [("s2", RVal.vjson [("session-id", "s2")]),
            ("s2:last-checked", RVal.vint 7), ("s2:usage-count", RVal.vint 0)])]⟩

deriving instance DecidableEq for Except

/-! Laws of the association-list primitives. -/

theorem assocGet_assocSet {α : Type} (m : List (String × α)) (k k' : String) (v : α) :
    assocGet (assocSet m k v) k' = if k' = k then some v else assocGet m k' := by
  induction m with
  | nil =>
    by_cases h : k = k'
    · subst h; simp [assocSet, assocGet]
    · simp [assocSet, assocGet, h, Ne.symm h]
  | cons p rest ih =>
    obtain ⟨a, b⟩ := p
    by_cases hak : a = k
    · subst hak
      by_cases h : a = k'
      · subst h; simp [assocSet, assocGet]
      · simp [assocSet, assocGet, h, Ne.symm h]
    · by_cases h : a = k'
      · have hk'k : ¬ k' = k := fun hh => hak (h.trans hh)
        simp [assocSet, assocGet, hak, h, hk'k]
      · simp [assocSet, assocGet, hak, h, ih]

theorem assocGet_assocDropKey {α : Type} (m : List (String × α)) (k k' : String) :
    assocGet (assocDropKey m k) k' = if k' = k then none else assocGet m k' := by
  induction m with
  | nil =>
    by_cases h : k' = k <;> simp [assocDropKey, assocGet, h]
  | cons p rest ih =>
    obtain ⟨a, b⟩ := p
    have hfilter : assocDropKey ((a, b) :: rest) k =
        if a = k then assocDropKey rest k else (a, b) :: assocDropKey rest k := by
      by_cases h : a = k <;> simp [assocDropKey, List.filter_cons, h]
    rw [hfilter]
    by_cases hak : a = k
    · subst hak
      rw [if_pos rfl, ih]
      by_cases h : k' = a
      · simp [h]
      · simp [assocGet, h, Ne.symm h]
    · rw [if_neg hak]
      by_cases h : a = k'
      · subst h
        simp [assocGet, fun hh : a = k => hak hh]
      · simp [assocGet, h, ih]

theorem assocGet_mem {α : Type} {m : List (String × α)} {k : String} {v : α}
    (h : assocGet m k = some v) : (k, v) ∈ m := by
  induction m with
  | nil => simp [assocGet] at h
  | cons p rest ih =>
    obtain ⟨a, b⟩ := p
    simp only [assocGet] at h
    by_cases hak : a = k
    · rw [if_pos hak] at h
      injection h with hbv
      subst hak; subst hbv
      exact List.mem_cons_self _ _
    · rw [if_neg hak] at h
      exact List.mem_cons_of_mem _ (ih h)

/-! Laws of the store accessors. -/

theorem getList_setList (st : Store) (c : String) (l : List String) (c' : String) :
    getList (setList st c l) c' = if c' = c then l else getList st c' := by
  unfold getList setList
  by_cases hl : l.isEmpty
  · rw [List.isEmpty_iff] at hl
    subst hl
    simp [assocGet_assocDropKey]
    by_cases h : c' = c <;> simp [h]
  · simp [hl, assocGet_assocSet]
    by_cases h : c' = c <;> simp [h]

theorem getHash_setList (st : Store) (c : String) (l : List String) (c' : String) :
    getHash (setList st c l) c' = getHash st c' := by
  unfold getHash setList
  by_cases hl : l.isEmpty <;> simp [hl]

theorem getHash_setHash (st : Store) (c : String) (h : Hash) (c' : String) :
    getHash (setHash st c h) c' = if c' = c then h else getHash st c' := by
  unfold getHash setHash
  by_cases hh : h.isEmpty
  · rw [List.isEmpty_iff] at hh
    subst hh
    simp [assocGet_assocDropKey]
    by_cases h : c' = c <;> simp [h]
  · simp [hh, assocGet_assocSet]
    by_cases h : c' = c <;> simp [h]

theorem getList_setHash (st : Store) (c : String) (h : Hash) (c' : String) :
    getList (setHash st c h) c' = getList st c' := by
  unfold getList setHash
  by_cases hh : h.isEmpty <;> simp [hh]

/-! Laws of the hash primitives (specializations of the assoc laws). -/

theorem hget_hset (h : Hash) (f : String) (v : RVal) (f' : String) :
    hget (hset h f v) f' = if f' = f then some v else hget h f' :=
  assocGet_assocSet h f f' v

theorem hget_hdel (h : Hash) (f f' : String) :
    hget (hdel h f) f' = if f' = f then none else hget h f' :=
  assocGet_assocDropKey h f f'

/-! Disjointness of the derived field names. -/

theorem lastCheckedKey_ne_self (id : String) : lastCheckedKey id ≠ id := by
  intro h
  have hlen := congrArg String.length h
  rw [lastCheckedKey, String.length_append] at hlen
  have : (":last-checked").length = 13 := by decide
  omega

theorem usageCountKey_ne_self (id : String) : usageCountKey id ≠ id := by
  intro h
  have hlen := congrArg String.length h
  rw [usageCountKey, String.length_append] at hlen
  have : (":usage-count").length = 12 := by decide
  omega

theorem lastCheckedKey_inj {a b : String} (h : lastCheckedKey a = lastCheckedKey b) : a = b := by
  rw [lastCheckedKey, lastCheckedKey] at h
  have hd := congrArg String.data h
  rw [String.data_append, String.data_append] at hd
  exact String.ext (List.append_cancel_right hd)

theorem usageCountKey_inj {a b : String} (h : usageCountKey a = usageCountKey b) : a = b := by
  rw [usageCountKey, usageCountKey] at h
  have hd := congrArg String.data h
  rw [String.data_append, String.data_append] at hd
  exact String.ext (List.append_cancel_right hd)

theorem lastCheckedKey_ne_usageCountKey (a b : String) :
    lastCheckedKey a ≠ usageCountKey b := by
  intro h
  have hd := congrArg (fun s => s.data.getLast?) h
  simp only [lastCheckedKey, usageCountKey, String.data_append, List.getLast?_append] at hd
  rw [show (":last-checked").data.getLast? = some 'd' from by decide,
      show (":usage-count").data.getLast? = some 't' from by decide] at hd
  simp [Option.or] at hd

theorem createdAtKey_ne_self (id : String) : createdAtKey id ≠ id := by
  intro h
  have hlen := congrArg String.length h
  rw [createdAtKey, String.length_append] at hlen
  have : (":created-at").length = 11 := by decide
  omega

theorem createdAtKey_ne_usageCountKey (a b : String) : createdAtKey a ≠ usageCountKey b := by
  intro h
  have hd := congrArg (fun s => s.data.reverse.take 2) h
  simp only [createdAtKey, usageCountKey, String.data_append, List.reverse_append] at hd
  rw [List.take_append_of_le_length (by decide),
      List.take_append_of_le_length (by decide)] at hd
  exact absurd hd (by decide)

theorem createdAtKey_ne_lastCheckedKey (a b : String) : createdAtKey a ≠ lastCheckedKey b := by
  intro h
  have hd := congrArg (fun s => s.data.reverse.take 2) h
  simp only [createdAtKey, lastCheckedKey, String.data_append, List.reverse_append] at hd
  rw [List.take_append_of_le_length (by decide),
      List.take_append_of_le_length (by decide)] at hd
  exact absurd hd (by decide)

theorem colonFree_ne_lastCheckedKey {x : String} (hx : colonFreeB x = true) (a : String) :
    x ≠ lastCheckedKey a := by
  intro h
  have hmem : ':' ∈ x.data := by
    rw [h, lastCheckedKey, String.data_append]
    exact List.mem_append_right _ (by decide)
  rw [colonFreeB, List.all_eq_true] at hx
  simpa using hx _ hmem

theorem colonFree_ne_usageCountKey {x : String} (hx : colonFreeB x = true) (a : String) :
    x ≠ usageCountKey a := by
  intro h
  have hmem : ':' ∈ x.data := by
    rw [h, usageCountKey, String.data_append]
    exact List.mem_append_right _ (by decide)
  rw [colonFreeB, List.all_eq_true] at hx
  simpa using hx _ hmem

theorem metaSuffixB_lastCheckedKey (id : String) : metaSuffixB (lastCheckedKey id) = true := by
  simp [metaSuffixB, lastCheckedKey, String.data_append]

theorem metaSuffixB_usageCountKey (id : String) : metaSuffixB (usageCountKey id) = true := by
  simp [metaSuffixB, usageCountKey, String.data_append]

/-- C1: contrary to the claim, GetSession cannot return the stored
session: getSessionCmd dereferences ARGV[4], which the Go caller never
passes (and the caller would reject the script's 4-value reply, expecting
3).  After one valid push of id "a" at time 42 (stored usage count 0),
GetSession("US","a") fails with the script error — and the usage count
has nevertheless been incremented to 1 by the HINCRBY that runs before
the abort. -/
theorem getSession_always_errors_after_push :
    hget (getHash pushedStore "US") (usageCountKey "a") = some (RVal.vint 0) ∧
    (GetSession pushedStore "US" "a").2 =
      Except.error "redis eval error: Lua redis lib command arguments must be strings or integers" ∧
    hget (getHash (GetSession pushedStore "US" "a").1 "US") (usageCountKey "a") =
      some (RVal.vint 1) := by decide

/-- C2: contrary to the claim, a GetSession of an identifier with no
stored payload neither returns a clean NotFound nor leaves the store
unchanged: the HINCRBY precedes both the payload-existence check and the
ARGV[4] abort, so on the empty store the call errors and the usage-count
field for the unknown id has been created with value 1. -/
theorem getSession_missing_id_still_mutates_store :
    hget (getHash emptyStore "US") (usageCountKey "nope") = none ∧
    (GetSession emptyStore "US" "nope").2 =
      Except.error "redis eval error: Lua redis lib command arguments must be strings or integers" ∧
    hget (getHash (GetSession emptyStore "US" "nope").1 "US") (usageCountKey "nope") =
      some (RVal.vint 1) := by decide

/-- C4: contrary to the claim, after pushes of "a", "b", "c" for "US",
ListSession errors on both requested pages: listSessionCmd reads the
nonexistent global `sessionId` (its loop variable is `id`) and aborts on
every non-empty window. -/
theorem listSession_pagination_always_errors :
    ListSession threePushStore "US" ⟨2, 0⟩ =
      Except.error
        "redis eval error: Script attempted to access nonexistent global variable (sessionId)" ∧
    ListSession threePushStore "US" ⟨2, 1⟩ =
      Except.error
        "redis eval error: Script attempted to access nonexistent global variable (sessionId)" := by
  decide

/-- C5: contrary to the claim, GetAllSessions fails as soon as any session
exists: allSessionCmd emits six reply entries per session (the sixth, the
never-written created-at, is always nil) while the Go loop consumes the
reply with stride 5, so it reads the nil created-at as the next record's
country and fails resolving the empty country's domain.  On the store
holding exactly the one pushed session it errors instead of returning
that session. -/
theorem getAllSessions_errors_on_nonempty_store :
    GetAllSessions pushedStore = Except.error "domain not found for country: " ∧
    GetAllSessions emptyStore = Except.ok [] := by decide

/-- C7 counterexample: a push for the unmapped country "ZZ" carrying its
session-id cookie as an explicit cookie list succeeds — no domain
validation error is raised on the explicit-list path. -/
theorem pushSession_unmapped_country_with_cookie_list_succeeds :
    assocGet defaultCountryCodeDomainMap "ZZ" = none ∧
    (PushSession emptyStore ⟨"ZZ", none, [⟨"session-id", "x"⟩]⟩ 0).2 = Except.ok () := by
  decide

/-- C7 (amended): the unresolvable-country-domain validation error is
raised only on the jar path: a push with a non-nil jar and a country
outside the domain table fails with the domain error and leaves the store
unchanged, while a push with a nil jar and an explicit cookie list never
consults the domain table and succeeds for any non-empty country whose
cookies contain a session-id value. -/
theorem pushSession_domain_check_only_on_jar_path (st : Store) (s : SessionInput) (now : Int) :
    (∀ jc, s.country ≠ "" → s.jar = some jc →
      assocGet defaultCountryCodeDomainMap s.country = none →
      PushSession st s now = (st, Except.error ("domain not found for country: " ++ s.country))) ∧
    (s.jar = none → s.cookies ≠ [] → s.country ≠ "" → (collectCookies s.cookies).2 ≠ "" →
      (PushSession st s now).2 = Except.ok ()) := by
  constructor
  · intro jc hc hjar hdom
    simp [PushSession, hc, hjar, resolveCookies, hdom]
  · intro hjar hck hc hsid
    simp [PushSession, hc, hjar, hck, resolveCookies, hsid]

/-- C7 amended claim witness at concrete inputs: the jar path fails for
"ZZ" while the explicit-list path (see the counterexample) does not. -/
theorem pushSession_domain_check_only_on_jar_path_witness :
    (SessionInput.country ⟨"ZZ", some [⟨"session-id", "x"⟩], []⟩ ≠ "" ∧
     SessionInput.jar ⟨"ZZ", some [⟨"session-id", "x"⟩], []⟩ = some [⟨"session-id", "x"⟩] ∧
     assocGet defaultCountryCodeDomainMap "ZZ" = none) ∧
    PushSession emptyStore ⟨"ZZ", some [⟨"session-id", "x"⟩], []⟩ 9 =
      (emptyStore, Except.error "domain not found for country: ZZ") :=
  ⟨⟨by decide, by decide, by decide⟩,
   (pushSession_domain_check_only_on_jar_path emptyStore
       ⟨"ZZ", some [⟨"session-id", "x"⟩], []⟩ 9).1
     [⟨"session-id", "x"⟩] (by decide) rfl (by decide)⟩

/-- C8: every PushSession validation failure — empty country, no cookie
source, or allow-listed cookies lacking a session-id value — returns the
corresponding error with the store untouched; and in general every
PushSession error path returns the store unchanged. -/
theorem pushSession_validation_failure_leaves_store_unchanged
    (st : Store) (s : SessionInput) (now : Int) :
    (s.country = "" → PushSession st s now = (st, Except.error "country not found in session")) ∧
    (s.country ≠ "" → s.jar = none → s.cookies = [] →
      PushSession st s now = (st, Except.error "cookies jar and cookies not found in session")) ∧
    (∀ cs, s.country ≠ "" → ¬(s.jar = none ∧ s.cookies = []) → resolveCookies s = .ok cs →
      (collectCookies cs).2 = "" →
      PushSession st s now = (st, Except.error "session-id not found in session")) ∧
    (∀ st' e, PushSession st s now = (st', Except.error e) → st' = st) := by
  refine ⟨?_, ?_, ?_, ?_⟩
  · intro h
    simp [PushSession, h]
  · intro h1 h2 h3
    simp [PushSession, h1, h2, h3]
  · intro cs h1 h2 h3 h4
    simp [PushSession, h1, h2, h3, h4]
  · intro st' e hpe
    by_cases h1 : s.country = ""
    · simp [PushSession, h1] at hpe
      exact hpe.1.symm
    · by_cases h2 : s.jar = none ∧ s.cookies = []
      · simp [PushSession, h1, h2] at hpe
        exact hpe.1.symm
      · rcases hr : resolveCookies s with e' | cs
        · simp [PushSession, h1, h2, hr] at hpe
          exact hpe.1.symm
        · by_cases h4 : (collectCookies cs).2 = ""
          · simp [PushSession, h1, h2, hr, h4] at hpe
            exact hpe.1.symm
          · simp [PushSession, h1, h2, hr, h4] at hpe

/-- C8 witness: the three validation failures at concrete inputs, each
leaving the concrete store exactly as it was. -/
theorem pushSession_validation_failure_witness :
    PushSession otherSessionStore ⟨"", none, [⟨"session-id", "x"⟩]⟩ 0 =
      (otherSessionStore, Except.error "country not found in session") ∧
    PushSession otherSessionStore ⟨"US", none, []⟩ 0 =
      (otherSessionStore, Except.error "cookies jar and cookies not found in session") ∧
    PushSession otherSessionStore ⟨"US", none, [⟨"i18n-prefs", "USD"⟩]⟩ 0 =
      (otherSessionStore, Except.error "session-id not found in session") :=
  ⟨(pushSession_validation_failure_leaves_store_unchanged otherSessionStore
      ⟨"", none, [⟨"session-id", "x"⟩]⟩ 0).1 rfl,
   (pushSession_validation_failure_leaves_store_unchanged otherSessionStore
      ⟨"US", none, []⟩ 0).2.1 (by decide) rfl rfl,
   (pushSession_validation_failure_leaves_store_unchanged otherSessionStore
      ⟨"US", none, [⟨"i18n-prefs", "USD"⟩]⟩ 0).2.2.1 [⟨"i18n-prefs", "USD"⟩]
     (by decide) (by decide) rfl (by decide)⟩

/-- C9: DeleteSession removes the first matching index occurrence of the
id and exactly its payload, last-checked and usage-count fields, touching
nothing else; consequently it is idempotent — on a (country, id) pair with
no index entry and no record fields it is a complete no-op on every
country's index list and record hash. -/
theorem deleteSession_removes_and_is_idempotent (st : Store) (c id : String) :
    (∀ c', getList (DeleteSession st c id) c' =
      if c' = c then (getList st c).erase id else getList st c') ∧
    (∀ c' f, hget (getHash (DeleteSession st c id) c') f =
      if c' = c ∧ (f = id ∨ f = lastCheckedKey id ∨ f = usageCountKey id) then none
      else hget (getHash st c') f) ∧
    (id ∉ getList st c → hget (getHash st c) id = none →
     hget (getHash st c) (lastCheckedKey id) = none →
     hget (getHash st c) (usageCountKey id) = none →
     (∀ c', getList (DeleteSession st c id) c' = getList st c') ∧
     (∀ c' f, hget (getHash (DeleteSession st c id) c') f = hget (getHash st c') f)) := by
  have hL : ∀ c', getList (DeleteSession st c id) c' =
      if c' = c then (getList st c).erase id else getList st c' := by
    intro c'
    simp only [DeleteSession]
    rw [getList_setHash, getList_setList]
  have hH : ∀ c' f, hget (getHash (DeleteSession st c id) c') f =
      if c' = c ∧ (f = id ∨ f = lastCheckedKey id ∨ f = usageCountKey id) then none
      else hget (getHash st c') f := by
    intro c' f
    simp only [DeleteSession]
    rw [getHash_setHash]
    by_cases hc : c' = c
    · rw [if_pos hc, getHash_setList, hget_hdel, hget_hdel, hget_hdel]
      by_cases f1 : f = usageCountKey id
      · simp [hc, f1]
      · by_cases f2 : f = lastCheckedKey id
        · simp [hc, f1, f2]
        · by_cases f3 : f = id
          · simp [hc, f1, f2, f3]
          · simp [hc, f1, f2, f3]
    · rw [if_neg hc, getHash_setList]
      simp [hc]
  refine ⟨hL, hH, fun h1 h2 h3 h4 => ⟨?_, ?_⟩⟩
  · intro c'
    rw [hL c']
    by_cases hc : c' = c
    · rw [if_pos hc, List.erase_of_not_mem h1, hc]
    · rw [if_neg hc]
  · intro c' f
    rw [hH c' f]
    split_ifs with hcf
    · obtain ⟨hc, hf⟩ := hcf
      subst hc
      rcases hf with rfl | rfl | rfl
      · exact h2.symm
      · exact h3.symm
      · exact h4.symm
    · rfl

/-- C9 witness: deleting the absent id "s1" from a store holding only
"s2" is a no-op on the index lists and record hashes. -/
theorem deleteSession_idempotent_witness :
    ("s1" ∉ getList otherSessionStore "US" ∧
     hget (getHash otherSessionStore "US") "s1" = none ∧
     hget (getHash otherSessionStore "US") (lastCheckedKey "s1") = none ∧
     hget (getHash otherSessionStore "US") (usageCountKey "s1") = none) ∧
    ((∀ c', getList (DeleteSession otherSessionStore "US" "s1") c' =
        getList otherSessionStore c') ∧
     (∀ c' f, hget (getHash (DeleteSession otherSessionStore "US" "s1") c') f =
        hget (getHash otherSessionStore c') f)) :=
  ⟨⟨by decide, by decide, by decide, by decide⟩,
   (deleteSession_removes_and_is_idempotent otherSessionStore "US" "s1").2.2
     (by decide) (by decide) (by decide) (by decide)⟩

/-- C10: UpdateLastCheckedTimestamp performs no existence check: on a
(country, id) pair with no record fields and no index entry it succeeds,
creating the id's last-checked field while the payload field and the
index entry remain absent — an orphan metadata field for an id that was
never pushed. -/
theorem updateLastChecked_creates_orphan_metadata (st : Store) (c id : String) (now : Int)
    (hp : hget (getHash st c) id = none) (hi : id ∉ getList st c) :
    (UpdateLastCheckedTimestamp st c id now).2 = Except.ok () ∧
    hget (getHash (UpdateLastCheckedTimestamp st c id now).1 c) (lastCheckedKey id) =
      some (RVal.vint now) ∧
    hget (getHash (UpdateLastCheckedTimestamp st c id now).1 c) id = none ∧
    id ∉ getList (UpdateLastCheckedTimestamp st c id now).1 c := by
  refine ⟨rfl, ?_, ?_, ?_⟩
  · simp only [UpdateLastCheckedTimestamp]
    rw [getHash_setHash, if_pos rfl, hget_hset, if_pos rfl]
  · simp only [UpdateLastCheckedTimestamp]
    rw [getHash_setHash, if_pos rfl, hget_hset,
      if_neg (fun hh : id = lastCheckedKey id => lastCheckedKey_ne_self id hh.symm)]
    exact hp
  · simp only [UpdateLastCheckedTimestamp]
    rw [getList_setHash]
    exact hi

/-- C10 witness: touching the never-pushed id "ghost" on the empty store
succeeds and leaves an orphan last-checked field. -/
theorem updateLastChecked_creates_orphan_metadata_witness :
    (hget (getHash emptyStore "US") "ghost" = none ∧ "ghost" ∉ getList emptyStore "US") ∧
    ((UpdateLastCheckedTimestamp emptyStore "US" "ghost" 77).2 = Except.ok () ∧
     hget (getHash (UpdateLastCheckedTimestamp emptyStore "US" "ghost" 77).1 "US")
       (lastCheckedKey "ghost") = some (RVal.vint 77) ∧
     hget (getHash (UpdateLastCheckedTimestamp emptyStore "US" "ghost" 77).1 "US") "ghost" =
       none ∧
     "ghost" ∉ getList (UpdateLastCheckedTimestamp emptyStore "US" "ghost" 77).1 "US") :=
  ⟨⟨by decide, by decide⟩,
   updateLastChecked_creates_orphan_metadata emptyStore "US" "ghost" 77 (by decide) (by decide)⟩

/-- C3 counterexample: a valid push (id "s1", country "US", time 42)
stores no created-at field — PushSession never writes `<id>:created-at`,
contrary to the claim that createdAt is stamped to the current time. -/
theorem pushSession_writes_no_createdAt :
    (PushSession emptyStore ⟨"US", none, [⟨"session-id", "s1"⟩]⟩ 42).2 = Except.ok () ∧
    hget (getHash (PushSession emptyStore ⟨"US", none, [⟨"session-id", "s1"⟩]⟩ 42).1 "US")
      (createdAtKey "s1") = none := by decide

/-- C3 (amended): a valid push writes, in one transaction, the serialized
allow-listed payload under the identifier, the usage count reset to 0 and
lastChecked stamped to now, and appends the identifier to the tail of the
country's index — but stamps no created-at field (see the
counterexample). -/
theorem pushSession_valid_writes (st : Store) (s : SessionInput) (now : Int)
    (cs : List Cookie)
    (hc : s.country ≠ "") (hsrc : ¬(s.jar = none ∧ s.cookies = []))
    (hres : resolveCookies s = .ok cs)
    (hsid : (collectCookies cs).2 ≠ "") :
    (PushSession st s now).2 = Except.ok () ∧
    hget (getHash (PushSession st s now).1 s.country) (collectCookies cs).2 =
      some (RVal.vjson (collectCookies cs).1) ∧
    hget (getHash (PushSession st s now).1 s.country) (lastCheckedKey (collectCookies cs).2) =
      some (RVal.vint now) ∧
    hget (getHash (PushSession st s now).1 s.country) (usageCountKey (collectCookies cs).2) =
      some (RVal.vint 0) ∧
    getList (PushSession st s now).1 s.country =
      getList st s.country ++ [(collectCookies cs).2] ∧
    hget (getHash (PushSession st s now).1 s.country) (createdAtKey (collectCookies cs).2) =
      hget (getHash st s.country) (createdAtKey (collectCookies cs).2) := by
  have hpush : PushSession st s now =
      (setList
        (setHash st s.country
          (hset
            (hset
              (hset (getHash st s.country) (collectCookies cs).2
                (RVal.vjson (collectCookies cs).1))
              (lastCheckedKey (collectCookies cs).2) (RVal.vint now))
            (usageCountKey (collectCookies cs).2) (RVal.vint 0)))
        s.country (getList st s.country ++ [(collectCookies cs).2]), Except.ok ()) := by
    simp [PushSession, hc, hsrc, hres, hsid]
  rw [hpush]
  refine ⟨rfl, ?_, ?_, ?_, ?_, ?_⟩
  · rw [getHash_setList, getHash_setHash, if_pos rfl, hget_hset,
      if_neg (fun h : (collectCookies cs).2 = usageCountKey (collectCookies cs).2 =>
        usageCountKey_ne_self (collectCookies cs).2 h.symm),
      hget_hset,
      if_neg (fun h : (collectCookies cs).2 = lastCheckedKey (collectCookies cs).2 =>
        lastCheckedKey_ne_self (collectCookies cs).2 h.symm),
      hget_hset, if_pos rfl]
  · rw [getHash_setList, getHash_setHash, if_pos rfl, hget_hset,
      if_neg (lastCheckedKey_ne_usageCountKey (collectCookies cs).2 (collectCookies cs).2),
      hget_hset, if_pos rfl]
  · rw [getHash_setList, getHash_setHash, if_pos rfl, hget_hset, if_pos rfl]
  · rw [getList_setList, if_pos rfl]
  · rw [getHash_setList, getHash_setHash, if_pos rfl, hget_hset,
      if_neg (createdAtKey_ne_usageCountKey (collectCookies cs).2 (collectCookies cs).2),
      hget_hset,
      if_neg (createdAtKey_ne_lastCheckedKey (collectCookies cs).2 (collectCookies cs).2),
      hget_hset,
      if_neg (fun h : createdAtKey (collectCookies cs).2 = (collectCookies cs).2 =>
        createdAtKey_ne_self (collectCookies cs).2 h)]

/-- C3 amended claim witness: the concrete valid push of "s1" writes
payload, usage 0, last-checked 42, and appends "s1" to the index. -/
theorem pushSession_valid_writes_witness :
    (SessionInput.country ⟨"US", none, [⟨"session-id", "s1"⟩]⟩ ≠ "" ∧
     resolveCookies ⟨"US", none, [⟨"session-id", "s1"⟩]⟩ = .ok [⟨"session-id", "s1"⟩] ∧
     (collectCookies [⟨"session-id", "s1"⟩]).2 ≠ "") ∧
    ((PushSession emptyStore ⟨"US", none, [⟨"session-id", "s1"⟩]⟩ 42).2 = Except.ok () ∧
     hget (getHash (PushSession emptyStore ⟨"US", none, [⟨"session-id", "s1"⟩]⟩ 42).1 "US")
       (collectCookies [(⟨"session-id", "s1"⟩ : Cookie)]).2 =
       some (RVal.vjson (collectCookies [(⟨"session-id", "s1"⟩ : Cookie)]).1) ∧
     hget (getHash (PushSession emptyStore ⟨"US", none, [⟨"session-id", "s1"⟩]⟩ 42).1 "US")
       (lastCheckedKey (collectCookies [(⟨"session-id", "s1"⟩ : Cookie)]).2) =
       some (RVal.vint 42) ∧
     hget (getHash (PushSession emptyStore ⟨"US", none, [⟨"session-id", "s1"⟩]⟩ 42).1 "US")
       (usageCountKey (collectCookies [(⟨"session-id", "s1"⟩ : Cookie)]).2) =
       some (RVal.vint 0) ∧
     getList (PushSession emptyStore ⟨"US", none, [⟨"session-id", "s1"⟩]⟩ 42).1 "US" =
       getList emptyStore "US" ++ [(collectCookies [(⟨"session-id", "s1"⟩ : Cookie)]).2] ∧
     hget (getHash (PushSession emptyStore ⟨"US", none, [⟨"session-id", "s1"⟩]⟩ 42).1 "US")
       (createdAtKey (collectCookies [(⟨"session-id", "s1"⟩ : Cookie)]).2) =
       hget (getHash emptyStore "US")
         (createdAtKey (collectCookies [(⟨"session-id", "s1"⟩ : Cookie)]).2)) :=
  ⟨⟨by decide, by decide, by decide⟩,
   pushSession_valid_writes emptyStore ⟨"US", none, [⟨"session-id", "s1"⟩]⟩ 42
     [⟨"session-id", "s1"⟩] (by decide) (by decide) (by decide) (by decide)⟩

/-! Properties of the cleanup sweep. -/

theorem hget_hdelMeta_lastChecked {x id : String} (h : Hash)
    (hid : colonFreeB id = true) (hne : x ≠ id) :
    hget (hdelMeta h id) (lastCheckedKey x) = hget h (lastCheckedKey x) := by
  simp only [hdelMeta, hget_hdel]
  rw [if_neg (lastCheckedKey_ne_usageCountKey x id),
      if_neg (fun hh : lastCheckedKey x = lastCheckedKey id => hne (lastCheckedKey_inj hh)),
      if_neg (Ne.symm (colonFree_ne_lastCheckedKey hid x))]

theorem hget_hdelMeta_usage {x id : String} (h : Hash)
    (hid : colonFreeB id = true) (hne : x ≠ id) :
    hget (hdelMeta h id) (usageCountKey x) = hget h (usageCountKey x) := by
  simp only [hdelMeta, hget_hdel]
  rw [if_neg (fun hh : usageCountKey x = usageCountKey id => hne (usageCountKey_inj hh)),
      if_neg (Ne.symm (lastCheckedKey_ne_usageCountKey id x)),
      if_neg (Ne.symm (colonFree_ne_usageCountKey hid x))]

theorem evictCond_hdelMeta_other (now tdThr ucThr : Int) {x id : String} (h : Hash)
    (hid : colonFreeB id = true) (hne : x ≠ id) :
    evictCond now tdThr ucThr (hdelMeta h id) x = evictCond now tdThr ucThr h x := by
  unfold evictCond
  rw [hget_hdelMeta_lastChecked h hid hne, hget_hdelMeta_usage h hid hne]

theorem hget_hdelMeta_self (h : Hash) (id : String) (hid : colonFreeB id = true) :
    hget (hdelMeta h id) id = none ∧
    hget (hdelMeta h id) (lastCheckedKey id) = none ∧
    hget (hdelMeta h id) (usageCountKey id) = none := by
  refine ⟨?_, ?_, ?_⟩
  · unfold hdelMeta
    rw [hget_hdel, if_neg (colonFree_ne_usageCountKey hid id), hget_hdel,
        if_neg (colonFree_ne_lastCheckedKey hid id), hget_hdel, if_pos rfl]
  · unfold hdelMeta
    rw [hget_hdel, if_neg (lastCheckedKey_ne_usageCountKey id id), hget_hdel, if_pos rfl]
  · unfold hdelMeta
    rw [hget_hdel, if_pos rfl]

theorem evictCond_hdelMeta_self (now tdThr ucThr : Int) (h : Hash) (id : String)
    (hid : colonFreeB id = true) :
    evictCond now tdThr ucThr (hdelMeta h id) id = false := by
  unfold evictCond
  rw [(hget_hdelMeta_self h id hid).2.1]

theorem hget_hdelMeta_none {h : Hash} {f : String} (hf : hget h f = none) (id : String) :
    hget (hdelMeta h id) f = none := by
  simp only [hdelMeta, hget_hdel]
  split_ifs <;> simp [hf]

theorem wfHash_hdel {h : Hash} (hwf : wfHash h) (f : String) : wfHash (hdel h f) :=
  fun p hp hmeta => hwf p (List.mem_of_mem_filter hp) hmeta

theorem wfHash_hdelMeta {h : Hash} (hwf : wfHash h) (id : String) :
    wfHash (hdelMeta h id) :=
  wfHash_hdel (wfHash_hdel (wfHash_hdel hwf id) (lastCheckedKey id)) (usageCountKey id)

/-- One sweep iteration, on a well-formed hash: never aborts, and evicts
exactly when `evictCond` holds. -/
theorem sweepStep_eq (now tdThr ucThr : Int) (l : List String) (h : Hash) (id : String)
    (hwf : wfHash h) :
    sweepStep now tdThr ucThr (l, h) id =
      .ok (if evictCond now tdThr ucThr h id then evictApply l h id else (l, h)) := by
  cases hlc : hget h (lastCheckedKey id) with
  | none => simp [sweepStep, evictCond, hlc]
  | some v =>
    have hv : isVint v = true := hwf _ (assocGet_mem hlc) (metaSuffixB_lastCheckedKey id)
    cases v with
    | vstr s => simp [isVint] at hv
    | vjson m => simp [isVint] at hv
    | vint t =>
      by_cases hage : now - t ≥ tdThr
      · simp [sweepStep, evictCond, hlc, rvalToNumber, hage]
      · cases huc : hget h (usageCountKey id) with
        | none => simp [sweepStep, evictCond, hlc, huc, rvalToNumber, hage]
        | some u =>
          have hu : isVint u = true := hwf _ (assocGet_mem huc) (metaSuffixB_usageCountKey id)
          cases u with
          | vstr s => simp [isVint] at hu
          | vjson m => simp [isVint] at hu
          | vint n =>
            by_cases hn : n ≥ ucThr <;>
              simp [sweepStep, evictCond, hlc, huc, rvalToNumber, hage, hn]

/-- The inner sweep loop over one country's captured id list, on a
well-formed hash with colon-free ids: it never aborts, preserves hash
well-formedness, keeps exactly the ids whose entry-time eviction
condition fails (LREM 0 removes every occurrence of an evicted id), never
resurrects an absent field, and deletes the three record fields of every
processed id whose eviction condition held. -/
theorem sweepCountryGo_spec (now tdThr ucThr : Int) (todo : List String) :
    ∀ (l : List String) (h : Hash),
    (∀ x ∈ todo, colonFreeB x = true) → wfHash h →
    (sweepCountryGo now tdThr ucThr todo (l, h)).2 = none ∧
    wfHash (sweepCountryGo now tdThr ucThr todo (l, h)).1.2 ∧
    (∀ x, x ∈ (sweepCountryGo now tdThr ucThr todo (l, h)).1.1 ↔
      (x ∈ l ∧ ¬(x ∈ todo ∧ evictCond now tdThr ucThr h x = true))) ∧
    (∀ f, hget h f = none → hget (sweepCountryGo now tdThr ucThr todo (l, h)).1.2 f = none) ∧
    (∀ x, x ∈ todo → evictCond now tdThr ucThr h x = true →
      hget (sweepCountryGo now tdThr ucThr todo (l, h)).1.2 x = none ∧
      hget (sweepCountryGo now tdThr ucThr todo (l, h)).1.2 (lastCheckedKey x) = none ∧
      hget (sweepCountryGo now tdThr ucThr todo (l, h)).1.2 (usageCountKey x) = none) := by
  induction todo with
  | nil =>
    intro l h _ hwf
    refine ⟨rfl, hwf, ?_, ?_, ?_⟩
    · intro x
      simp [sweepCountryGo]
    · intro f hf
      simpa [sweepCountryGo] using hf
    · intro x hx _
      simp at hx
  | cons id rest ih =>
    intro l h hcf hwf
    have hid : colonFreeB id = true := hcf id (List.mem_cons_self id rest)
    have hcfr : ∀ x ∈ rest, colonFreeB x = true := fun x hx => hcf x (List.mem_cons_of_mem _ hx)
    have hstep := sweepStep_eq now tdThr ucThr l h id hwf
    by_cases hev : evictCond now tdThr ucThr h id = true
    · rw [if_pos hev] at hstep
      have hwf' : wfHash (hdelMeta h id) := wfHash_hdelMeta hwf id
      have hrun : sweepCountryGo now tdThr ucThr (id :: rest) (l, h) =
          sweepCountryGo now tdThr ucThr rest
            (l.filter (fun x => decide (x ≠ id)), hdelMeta h id) := by
        simp only [sweepCountryGo, hstep, evictApply]
      obtain ⟨IH1, IH2, IH3, IH4, IH5⟩ :=
        ih (l.filter (fun x => decide (x ≠ id))) (hdelMeta h id) hcfr hwf'
      rw [hrun]
      refine ⟨IH1, IH2, ?_, ?_, ?_⟩
      · intro x
        rw [IH3 x]
        by_cases hx : x = id
        · subst hx
          simp [List.mem_filter, hev]
        · by_cases hxr : x ∈ rest
          · have hE := evictCond_hdelMeta_other now tdThr ucThr h hid hx
            simp [List.mem_filter, List.mem_cons, hx, hxr, hE]
          · simp [List.mem_filter, List.mem_cons, hx, hxr]
      · intro f hf
        exact IH4 f (hget_hdelMeta_none hf id)
      · intro x hx hEx
        by_cases hxid : x = id
        · subst hxid
          obtain ⟨d1, d2, d3⟩ := hget_hdelMeta_self h x hid
          exact ⟨IH4 _ d1, IH4 _ d2, IH4 _ d3⟩
        · have hxr : x ∈ rest := by
            rcases List.mem_cons.mp hx with h' | h'
            · exact absurd h' hxid
            · exact h'
          have hE := evictCond_hdelMeta_other now tdThr ucThr h hid hxid
          exact IH5 x hxr (by rw [hE]; exact hEx)
    · have hevf : evictCond now tdThr ucThr h id = false := by
        cases hb : evictCond now tdThr ucThr h id
        · rfl
        · exact absurd hb hev
      rw [if_neg hev] at hstep
      have hrun : sweepCountryGo now tdThr ucThr (id :: rest) (l, h) =
          sweepCountryGo now tdThr ucThr rest (l, h) := by
        simp only [sweepCountryGo, hstep]
      obtain ⟨IH1, IH2, IH3, IH4, IH5⟩ := ih l h hcfr hwf
      rw [hrun]
      refine ⟨IH1, IH2, ?_, IH4, ?_⟩
      · intro x
        rw [IH3 x]
        by_cases hx : x = id
        · subst hx
          simp [hevf]
        · simp [List.mem_cons, hx]
      · intro x hx hEx
        by_cases hxid : x = id
        · subst hxid
          rw [hEx] at hevf
          simp at hevf
        · have hxr : x ∈ rest := by
            rcases List.mem_cons.mp hx with h' | h'
            · exact absurd h' hxid
            · exact h'
          exact IH5 x hxr hEx

theorem assocGet_eq_none_of_not_mem_keys {α : Type} {m : List (String × α)} {k : String}
    (hk : k ∉ m.map Prod.fst) : assocGet m k = none := by
  cases hAG : assocGet m k with
  | none => rfl
  | some v => exact absurd (List.mem_map_of_mem Prod.fst (assocGet_mem hAG)) hk

/-- The outer sweep loop over the countries captured at script start (all
distinct), on a store whose indexed ids are colon-free and whose hashes
are well-formed: never aborts, filters every processed country's index by
the entry-time eviction condition, leaves unprocessed countries' hashes
alone, and deletes the record fields of every evicted indexed id. -/
theorem cleanupCountriesGo_spec (now tdThr ucThr : Int) (cs : List String) :
    ∀ (st : Store),
    cs.Nodup →
    (∀ c x, x ∈ getList st c → colonFreeB x = true) →
    (∀ c, wfHash (getHash st c)) →
    (cleanupCountriesGo now tdThr ucThr cs st).2 = none ∧
    (∀ c x, x ∈ getList (cleanupCountriesGo now tdThr ucThr cs st).1 c ↔
      (x ∈ getList st c ∧ ¬(c ∈ cs ∧ evictCond now tdThr ucThr (getHash st c) x = true))) ∧
    (∀ c, c ∉ cs → getHash (cleanupCountriesGo now tdThr ucThr cs st).1 c = getHash st c) ∧
    (∀ c x, c ∈ cs → x ∈ getList st c →
      evictCond now tdThr ucThr (getHash st c) x = true →
      hget (getHash (cleanupCountriesGo now tdThr ucThr cs st).1 c) x = none ∧
      hget (getHash (cleanupCountriesGo now tdThr ucThr cs st).1 c) (lastCheckedKey x) = none ∧
      hget (getHash (cleanupCountriesGo now tdThr ucThr cs st).1 c) (usageCountKey x) =
        none) := by
  induction cs with
  | nil =>
    intro st _ _ _
    refine ⟨rfl, ?_, ?_, ?_⟩
    · intro c x
      simp [cleanupCountriesGo]
    · intro c _
      rfl
    · intro c x hc _ _
      simp at hc
  | cons c0 rest ih =>
    intro st hnd hcf hwf
    have hnd0 : c0 ∉ rest := (List.nodup_cons.mp hnd).1
    have hndr : rest.Nodup := (List.nodup_cons.mp hnd).2
    obtain ⟨S1, S2, S3, S4, S5⟩ :=
      sweepCountryGo_spec now tdThr ucThr (getList st c0) (getList st c0) (getHash st c0)
        (fun x hx => hcf c0 x hx) (hwf c0)
    have hrun : cleanupCountriesGo now tdThr ucThr (c0 :: rest) st =
        cleanupCountriesGo now tdThr ucThr rest
          (setHash
            (setList st c0
              (sweepCountryGo now tdThr ucThr (getList st c0)
                (getList st c0, getHash st c0)).1.1)
            c0
            (sweepCountryGo now tdThr ucThr (getList st c0)
              (getList st c0, getHash st c0)).1.2) := by
      simp only [cleanupCountriesGo, S1]
    generalize hsw : sweepCountryGo now tdThr ucThr (getList st c0)
        (getList st c0, getHash st c0) = sw at S2 S3 S4 S5 hrun
    rw [hrun]
    set st' := setHash (setList st c0 sw.1.1) c0 sw.1.2 with hst'
    have hL' : ∀ c', getList st' c' = if c' = c0 then sw.1.1 else getList st c' := by
      intro c'
      rw [hst', getList_setHash, getList_setList]
    have hH' : ∀ c', getHash st' c' = if c' = c0 then sw.1.2 else getHash st c' := by
      intro c'
      rw [hst', getHash_setHash]
      by_cases hc : c' = c0
      · rw [if_pos hc, if_pos hc]
      · rw [if_neg hc, if_neg hc, getHash_setList]
    have hcf' : ∀ c x, x ∈ getList st' c → colonFreeB x = true := by
      intro c x hx
      rw [hL' c] at hx
      by_cases hc : c = c0
      · rw [if_pos hc] at hx
        exact hcf c0 x ((S3 x).mp hx).1
      · rw [if_neg hc] at hx
        exact hcf c x hx
    have hwf' : ∀ c, wfHash (getHash st' c) := by
      intro c
      rw [hH' c]
      by_cases hc : c = c0
      · rw [if_pos hc]
        exact S2
      · rw [if_neg hc]
        exact hwf c
    obtain ⟨IH1, IH2, IH3, IH4⟩ := ih st' hndr hcf' hwf'
    refine ⟨IH1, ?_, ?_, ?_⟩
    · intro c x
      rw [IH2 c x, hL' c, hH' c]
      by_cases hc : c = c0
      · subst hc
        rw [if_pos rfl, if_pos rfl, S3 x]
        simp [List.mem_cons, hnd0]
        tauto
      · rw [if_neg hc, if_neg hc]
        simp [List.mem_cons, hc]
    · intro c hc
      have hc0 : c ≠ c0 := fun hh => hc (hh ▸ List.mem_cons_self c0 rest)
      have hcr : c ∉ rest := fun hh => hc (List.mem_cons_of_mem _ hh)
      rw [IH3 c hcr, hH' c, if_neg hc0]
    · intro c x hc hx hEx
      rcases List.mem_cons.mp hc with hc0 | hcr
      · subst hc0
        obtain ⟨d1, d2, d3⟩ := S5 x hx hEx
        rw [IH3 c hnd0, hH' c, if_pos rfl]
        exact ⟨d1, d2, d3⟩
      · have hc0c : c ≠ c0 := fun hh => hnd0 (hh ▸ hcr)
        have hx' : x ∈ getList st' c := by
          rw [hL' c, if_neg hc0c]
          exact hx
        have hE' : evictCond now tdThr ucThr (getHash st' c) x = true := by
          rw [hH' c, if_neg hc0c]
          exact hEx
        exact IH4 c x hcr hx' hE'

/-- C6 counterexample: with usageThreshold 0, a session whose record has
usage count 5 but no last-checked field survives the sweep untouched —
the script skips a session without lastChecked entirely, so
`cleanupSweep(usageThreshold=0)` does not evict every session, and
usage-based eviction never applies to a session without lastChecked. -/
theorem cleanup_skips_sessions_without_lastChecked :
    hget (getHash noLastCheckedStore "US") (lastCheckedKey "s1") = none ∧
    hget (getHash noLastCheckedStore "US") (usageCountKey "s1") = some (RVal.vint 5) ∧
    (CleanupSessions noLastCheckedStore 100 999999 0).2 = Except.ok () ∧
    getList (CleanupSessions noLastCheckedStore 100 999999 0).1 "US" = ["s1"] := by decide

/-- C6 (amended): on a store with distinct record keys, colon-free
indexed ids and integer-valued metadata fields, cleanupSweep keeps an
identifier in its country's Index exactly when the eviction condition
fails, where the condition requires a present (integer) last-checked
field and then `now - lastChecked >= ageThreshold`, or a present usage
field with `usage >= usageThreshold`; a session with no recorded
lastChecked is never evicted at all — not even by usage — and for every
evicted indexed identifier the payload, last-checked and usage-count
fields are deleted. -/
theorem cleanupSessions_evicts_iff (st : Store) (now tdThr ucThr : Int)
    (hnd : (st.records.map Prod.fst).Nodup)
    (hcf : ∀ p ∈ st.idx, ∀ x ∈ p.2, colonFreeB x = true)
    (hwf : ∀ p ∈ st.records, wfHash p.2) :
    (CleanupSessions st now tdThr ucThr).2 = Except.ok () ∧
    (∀ c x, x ∈ getList (CleanupSessions st now tdThr ucThr).1 c ↔
      (x ∈ getList st c ∧ evictCond now tdThr ucThr (getHash st c) x = false)) ∧
    (∀ c x, x ∈ getList st c → evictCond now tdThr ucThr (getHash st c) x = true →
      hget (getHash (CleanupSessions st now tdThr ucThr).1 c) x = none ∧
      hget (getHash (CleanupSessions st now tdThr ucThr).1 c) (lastCheckedKey x) = none ∧
      hget (getHash (CleanupSessions st now tdThr ucThr).1 c) (usageCountKey x) = none) := by
  have hcf' : ∀ c x, x ∈ getList st c → colonFreeB x = true := by
    intro c x hx
    unfold getList at hx
    cases hAG : assocGet st.idx c with
    | none => rw [hAG] at hx; simp at hx
    | some l => rw [hAG] at hx; exact hcf (c, l) (assocGet_mem hAG) x hx
  have hwf' : ∀ c, wfHash (getHash st c) := by
    intro c
    unfold getHash
    cases hAG : assocGet st.records c with
    | none =>
      intro p hp
      simp at hp
    | some h =>
      exact hwf (c, h) (assocGet_mem hAG)
  have hEmiss : ∀ c, c ∉ st.records.map Prod.fst →
      ∀ x, evictCond now tdThr ucThr (getHash st c) x = false := by
    intro c hc x
    unfold getHash
    rw [assocGet_eq_none_of_not_mem_keys hc]
    rfl
  obtain ⟨G1, G2, G3, G4⟩ :=
    cleanupCountriesGo_spec now tdThr ucThr (st.records.map Prod.fst) st hnd hcf' hwf'
  refine ⟨?_, ?_, ?_⟩
  · simp [CleanupSessions, G1]
  · intro c x
    have hM := G2 c x
    simp only [CleanupSessions]
    rw [hM]
    by_cases hc : c ∈ st.records.map Prod.fst
    · simp [hc]
    · simp [hc, hEmiss c hc x]
  · intro c x hx hEx
    simp only [CleanupSessions]
    by_cases hc : c ∈ st.records.map Prod.fst
    · exact G4 c x hc hx hEx
    · rw [hEmiss c hc x] at hEx
      simp at hEx

/-- C6 amended claim witness: on the concrete one-session store (pushed
at 50, usage 3) a sweep at time 100 with age threshold 10 evicts the
session (age condition holds: 100 - 50 >= 10) and deletes its fields. -/
theorem cleanupSessions_evicts_iff_witness :
    ((sweepDemoStore.records.map Prod.fst).Nodup ∧
     evictCond 100 10 99 (getHash sweepDemoStore "US") "s1" = true ∧
     "s1" ∈ getList sweepDemoStore "US") ∧
    ((CleanupSessions sweepDemoStore 100 10 99).2 = Except.ok () ∧
     (∀ c x, x ∈ getList (CleanupSessions sweepDemoStore 100 10 99).1 c ↔
       (x ∈ getList sweepDemoStore c ∧
        evictCond 100 10 99 (getHash sweepDemoStore c) x = false)) ∧
     (∀ c x, x ∈ getList sweepDemoStore c →
       evictCond 100 10 99 (getHash sweepDemoStore c) x = true →
       hget (getHash (CleanupSessions sweepDemoStore 100 10 99).1 c) x = none ∧
       hget (getHash (CleanupSessions sweepDemoStore 100 10 99).1 c) (lastCheckedKey x) =
         none ∧
       hget (getHash (CleanupSessions sweepDemoStore 100 10 99).1 c) (usageCountKey x) =
         none)) :=
  ⟨⟨by decide, by decide, by decide⟩,
   cleanupSessions_evicts_iff sweepDemoStore 100 10 99 (by decide) (by decide) (by decide)⟩

end AmazonSession
